import Mathlib

/-!
Verification of the task-manager core of `Task-Manager.py`.

The embedding models a `Task` record, the manager state `TMState`
(`tasks` list plus `next_id`), the operations `add_task`,
`complete_task`, `uncomplete_task`, `delete_task`, JSON persistence
(`save_tasks` / `load_tasks`, with the stored JSON modelled by
`TaskDict` / `StoreData` / `StoreFile`, `Option` marking absent
fields), and `get_statistics`.  The current wall-clock time
(`datetime.now().isoformat()`) is threaded explicitly as a `now`
string; the date predicates of `get_statistics` are abstracted as
boolean predicates on timestamp strings.
-/

namespace TaskManager

/-- One task, mirroring `Task.__init__`'s resulting attributes.
`id` is `Option Int` because `task_id` may be `None`;
`created_at` is always a string after `__init__` (the `created_at or
datetime.now().isoformat()` expression); `completed_at` may be `None`. -/
structure Task where
  id : Option Int
  title : String
  completed : Bool
  created_at : String
  completed_at : Option String
deriving DecidableEq

/-- `Task.__init__(title, task_id, completed, created_at, completed_at)`,
with `now` the value of `datetime.now().isoformat()`.  Python's
`created_at or now` takes `now` when `created_at` is `None` or the
empty string (both falsy). -/
def Task.make (title : String) (task_id : Option Int) (completed : Bool)
    (created_at : Option String) (completed_at : Option String) (now : String) : Task :=
  { id := task_id, title := title, completed := completed,
    created_at :=
      match created_at with
      | some s => if s = "" then now else s
      | none => now,
    completed_at := completed_at }

/-- `Task.complete`: sets `completed = True`, stamps `completed_at` with now. -/
def Task.complete (t : Task) (now : String) : Task :=
  { t with completed := true, completed_at := some now }

/-- `Task.uncomplete`: sets `completed = False`, clears `completed_at`. -/
def Task.uncomplete (t : Task) : Task :=
  { t with completed := false, completed_at := none }

/-- A stored task record (one element of the JSON `tasks` array).
`none` on a field means the key is absent from the record (for the
purposes of `dict.get` an explicit JSON `null` behaves the same). -/
structure TaskDict where
  id : Option Int
  title : Option String
  completed : Option Bool
  created_at : Option String
  completed_at : Option String
deriving DecidableEq

/-- `Task.to_dict`: every key is written; `id` and `completed_at` may be null. -/
def Task.to_dict (t : Task) : TaskDict :=
  { id := t.id, title := some t.title, completed := some t.completed,
    created_at := some t.created_at, completed_at := t.completed_at }

/-- `Task.from_dict`: `data["title"]` raises `KeyError` when absent
(modelled as `none`); `data.get("id")`, `data.get("completed", False)`,
`data.get("created_at")`, `data.get("completed_at")` otherwise. -/
def Task.from_dict (d : TaskDict) (now : String) : Option Task :=
  match d.title with
  | none => none
  | some ti => some (Task.make ti d.id (d.completed.getD false) d.created_at d.completed_at now)

/-- The manager's in-memory state: `self.tasks` and `self.next_id`. -/
structure TMState where
  tasks : List Task
  next_id : Int
deriving DecidableEq

/-- The parsed top-level JSON object of the store file; `none` marks an
absent key (read through `data.get`). -/
structure StoreData where
  next_id : Option Int
  tasksF : Option (List TaskDict)
deriving DecidableEq

/-- The backing store as `load_tasks` can observe it: missing file,
unparseable file (`json.JSONDecodeError`), or parsed data. -/
inductive StoreFile where
  | absent : StoreFile
  | corrupt : StoreFile
  | parsed : StoreData → StoreFile
deriving DecidableEq

/-- The list comprehension `[Task.from_dict(t) for t in ...]`: fails as a
whole (raising, e.g. `KeyError`) as soon as one record fails. -/
def fromDictList (l : List TaskDict) (now : String) : Option (List Task) :=
  l.mapM (fun d => Task.from_dict d now)

/-- `TaskManager.load_tasks`: absent file or `JSONDecodeError` give the
fresh state; otherwise `next_id = data.get("next_id", 1)` and the task
list is rebuilt, except that a raising `Task.from_dict` lands in the
generic `except Exception` handler which resets both fields. -/
def load_tasks (f : StoreFile) (now : String) : TMState :=
  match f with
  | .absent => { tasks := [], next_id := 1 }
  | .corrupt => { tasks := [], next_id := 1 }
  | .parsed d =>
    match fromDictList (d.tasksF.getD []) now with
    | some ts => { tasks := ts, next_id := d.next_id.getD 1 }
    | none => { tasks := [], next_id := 1 }

/-- `TaskManager.save_tasks`: the serialized `{"next_id": ..., "tasks": [...]}`. -/
def save_tasks (s : TMState) : StoreData :=
  { next_id := some s.next_id, tasksF := some (s.tasks.map Task.to_dict) }

/-- Python's `str.strip()` (no argument): remove leading and trailing
whitespace characters. -/
def strip (s : String) : String :=
  String.mk (List.reverse (List.dropWhile Char.isWhitespace
    (List.reverse (List.dropWhile Char.isWhitespace s.data))))

/-- `TaskManager.add_task`: raises `ValueError` when the stripped title
is empty; otherwise builds `Task(title=title.strip(), task_id=next_id)`,
appends it, increments `next_id` (and saves).  The error carries the
Python exception message. -/
def add_task (s : TMState) (title : String) (now : String) :
    Except String (Task × TMState) :=
  if strip title = "" then .error "Task title cannot be empty"
  else
    let t := Task.make (strip title) (some s.next_id) false none none now
    .ok (t, { tasks := s.tasks ++ [t], next_id := s.next_id + 1 })

/-- Replace the first element satisfying `p` by its image under `f`
(this is what `_find_task` followed by an in-place mutation of the
found object does to `self.tasks`). -/
def updateFirst (p : Task → Bool) (f : Task → Task) : List Task → List Task
  | [] => []
  | t :: ts => if p t then f t :: ts else t :: updateFirst p f ts

/-- Drop the first element satisfying `p` (this is
`self.tasks.remove(task)` for the object `_find_task` returned). -/
def removeFirst (p : Task → Bool) : List Task → List Task
  | [] => []
  | t :: ts => if p t then ts else t :: removeFirst p ts

/-- `TaskManager._find_task`: the first task whose `id` equals `task_id`
(a task whose `id` is `None` never matches an `int`). -/
def find_task (s : TMState) (i : Int) : Option Task :=
  s.tasks.find? (fun t => t.id == some i)

/-- `TaskManager.complete_task`: returns the boolean result, the new
state, and the store content written by `save_tasks` (`none` when the
task is not found and nothing is written). -/
def complete_task (s : TMState) (i : Int) (now : String) :
    Bool × TMState × Option StoreData :=
  match find_task s i with
  | some _ =>
    let s' : TMState :=
      { tasks := updateFirst (fun t => t.id == some i) (fun t => t.complete now) s.tasks,
        next_id := s.next_id }
    (true, s', some (save_tasks s'))
  | none => (false, s, none)

/-- `TaskManager.uncomplete_task`, analogous to `complete_task`. -/
def uncomplete_task (s : TMState) (i : Int) :
    Bool × TMState × Option StoreData :=
  match find_task s i with
  | some _ =>
    let s' : TMState :=
      { tasks := updateFirst (fun t => t.id == some i) Task.uncomplete s.tasks,
        next_id := s.next_id }
    (true, s', some (save_tasks s'))
  | none => (false, s, none)

/-- `TaskManager.delete_task`: removes the found object from the list. -/
def delete_task (s : TMState) (i : Int) :
    Bool × TMState × Option StoreData :=
  match find_task s i with
  | some _ =>
    let s' : TMState :=
      { tasks := removeFirst (fun t => t.id == some i) s.tasks,
        next_id := s.next_id }
    (true, s', some (save_tasks s'))
  | none => (false, s, none)

/-- The dictionary returned by `TaskManager.get_statistics`. -/
structure Stats where
  total : Nat
  completed : Nat
  pending : Nat
  completion_rate : ℚ
  completed_today : Nat
  completed_this_week : Nat
deriving DecidableEq

/-- `TaskManager.get_statistics`.  `isToday c` stands for
`datetime.fromisoformat(c).date() == datetime.now().date()` and
`inWeek c` for `datetime.fromisoformat(c) > datetime.now() - timedelta(days=7)`;
the guard `t.completed_at and ...` is false for an absent or empty
timestamp.  The float `completed / total * 100` is modelled in `ℚ`. -/
def get_statistics (s : TMState) (isToday inWeek : String → Bool) : Stats :=
  let total := s.tasks.length
  let completed := (s.tasks.filter (fun t => t.completed)).length
  let pending := total - completed
  let completion_rate : ℚ := if total > 0 then (completed : ℚ) / (total : ℚ) * 100 else 0
  let completed_today :=
    (s.tasks.filter (fun t =>
      match t.completed_at with
      | some c => if c = "" then false else isToday c
      | none => false)).length
  let completed_this_week :=
    (s.tasks.filter (fun t =>
      match t.completed_at with
      | some c => if c = "" then false else inWeek c
      | none => false)).length
  { total := total, completed := completed, pending := pending,
    completion_rate := completion_rate, completed_today := completed_today,
    completed_this_week := completed_this_week }

/-- One manager operation, with the wall-clock time it observes. -/
inductive Op where
  | add : String → String → Op
  | complete : Int → String → Op
  | uncomplete : Int → Op
  | delete : Int → Op

/-- The state after one operation (a raising `add_task` leaves the state
untouched: the exception fires before any mutation). -/
def applyOp (s : TMState) : Op → TMState
  | .add title now =>
    match add_task s title now with
    | .ok (_, s') => s'
    | .error _ => s
  | .complete i now => (complete_task s i now).2.1
  | .uncomplete i => (uncomplete_task s i).2.1
  | .delete i => (delete_task s i).2.1

/-- The state after a sequence of operations. -/
def run (s : TMState) : List Op → TMState
  | [] => s
  | op :: ops => run (applyOp s op) ops

/-- The identifiers assigned by the successful `add` calls of a
sequence of operations, in order. -/
def assignedIds (s : TMState) : List Op → List Int
  | [] => []
  | .add title now :: ops =>
    match add_task s title now with
    | .ok (_, s') => s.next_id :: assignedIds s' ops
    | .error _ => assignedIds s ops
  | op :: ops => assignedIds (applyOp s op) ops

/-! ### Helper lemmas -/

theorem add_task_ok (s : TMState) (title now : String) (t : Task) (s' : TMState)
    (h : add_task s title now = Except.ok (t, s')) :
    strip title ≠ "" ∧ t = Task.make (strip title) (some s.next_id) false none none now ∧
    s'.tasks = s.tasks ++ [t] ∧ s'.next_id = s.next_id + 1 := by
  by_cases hE : strip title = ""
  · simp [add_task, hE] at h
  · simp [add_task, hE] at h
    obtain ⟨ht, hs⟩ := h
    exact ⟨hE, ht.symm, by rw [← hs, ht], by rw [← hs]⟩

theorem next_id_applyOp (s : TMState) (op : Op) :
    s.next_id ≤ (applyOp s op).next_id := by
  cases op with
  | add title now =>
    by_cases h : strip title = ""
    · simp [applyOp, add_task, h]
    · have hA : applyOp s (Op.add title now) =
          { tasks := s.tasks ++ [Task.make (strip title) (some s.next_id) false none none now],
            next_id := s.next_id + 1 } := by
        simp [applyOp, add_task, h]
      rw [hA]
      show s.next_id ≤ s.next_id + 1
      omega
  | complete i now =>
    cases hf : find_task s i <;> simp [applyOp, complete_task, hf]
  | uncomplete i =>
    cases hf : find_task s i <;> simp [applyOp, uncomplete_task, hf]
  | delete i =>
    cases hf : find_task s i <;> simp [applyOp, delete_task, hf]

theorem next_id_run (s : TMState) (ops : List Op) :
    s.next_id ≤ (run s ops).next_id := by
  induction ops generalizing s with
  | nil => simp [run]
  | cons op ops ih =>
    simp only [run]
    exact le_trans (next_id_applyOp s op) (ih (applyOp s op))

theorem assignedIds_ge (s : TMState) (ops : List Op) :
    ∀ i ∈ assignedIds s ops, s.next_id ≤ i := by
  induction ops generalizing s with
  | nil => simp [assignedIds]
  | cons op ops ih =>
    cases op with
    | add title now =>
      cases hadd : add_task s title now with
      | error e =>
        simp only [assignedIds, hadd]
        exact ih s
      | ok p =>
        obtain ⟨t, s'⟩ := p
        have hN : s'.next_id = s.next_id + 1 := (add_task_ok s title now t s' hadd).2.2.2
        intro i hi
        simp only [assignedIds, hadd, List.mem_cons] at hi
        rcases hi with rfl | hi
        · exact le_refl _
        · have := ih s' i hi
          omega
    | complete j now =>
      simp only [assignedIds]
      intro i hi
      exact le_trans (next_id_applyOp s (Op.complete j now))
        (ih (applyOp s (Op.complete j now)) i hi)
    | uncomplete j =>
      simp only [assignedIds]
      intro i hi
      exact le_trans (next_id_applyOp s (Op.uncomplete j))
        (ih (applyOp s (Op.uncomplete j)) i hi)
    | delete j =>
      simp only [assignedIds]
      intro i hi
      exact le_trans (next_id_applyOp s (Op.delete j))
        (ih (applyOp s (Op.delete j)) i hi)

/-! ### Claim theorems -/

/-- C1: starting from any state (in particular from any state produced
by `load_tasks`, hydrated from a stored record) and running any
sequence of operations, the identifiers assigned by the `add` calls
are strictly increasing (hence pairwise unique) regardless of
intervening deletes, and the final `next_id` stays strictly greater
than every id assigned along the way. -/
theorem assigned_ids_strictly_increasing (s : TMState) (ops : List Op) :
    List.Pairwise (· < ·) (assignedIds s ops) ∧
    ∀ i ∈ assignedIds s ops, i < (run s ops).next_id := by
  induction ops generalizing s with
  | nil => simp [assignedIds, run]
  | cons op ops ih =>
    cases op with
    | add title now =>
      cases hadd : add_task s title now with
      | error e =>
        have hA : applyOp s (Op.add title now) = s := by simp [applyOp, hadd]
        simp only [assignedIds, hadd, run, hA]
        exact ih s
      | ok p =>
        obtain ⟨t, s'⟩ := p
        have hN : s'.next_id = s.next_id + 1 := (add_task_ok s title now t s' hadd).2.2.2
        have hA : applyOp s (Op.add title now) = s' := by simp [applyOp, hadd]
        simp only [assignedIds, hadd, run, hA]
        constructor
        · refine List.pairwise_cons.mpr ⟨?_, (ih s').1⟩
          intro j hj
          have := assignedIds_ge s' ops j hj
          omega
        · intro i hi
          rcases List.mem_cons.mp hi with rfl | hi
          · have := next_id_run s' ops
            omega
          · exact (ih s').2 i hi
    | complete j now =>
      simp only [assignedIds, run]
      exact ih (applyOp s (Op.complete j now))
    | uncomplete j =>
      simp only [assignedIds, run]
      exact ih (applyOp s (Op.uncomplete j))
    | delete j =>
      simp only [assignedIds, run]
      exact ih (applyOp s (Op.delete j))

/-- C2: `add_task` fails with the `ValueError` exactly when the title
trims to the empty string; a failing call leaves the state unchanged;
a successful call stores the trimmed title on a fresh, uncompleted
task, appends it and increments `next_id`. -/
theorem add_task_validation (s : TMState) (title now : String) :
    ((∃ e, add_task s title now = Except.error e) ↔ strip title = "") ∧
    (strip title = "" → applyOp s (Op.add title now) = s) ∧
    (∀ t s', add_task s title now = Except.ok (t, s') →
      t.title = strip title ∧ t.completed = false ∧ t.completed_at = none ∧
      s'.tasks = s.tasks ++ [t] ∧ s'.next_id = s.next_id + 1) := by
  by_cases hE : strip title = ""
  · refine ⟨by simp [add_task, hE], fun _ => by simp [applyOp, add_task, hE], ?_⟩
    intro t s' h
    simp [add_task, hE] at h
  · refine ⟨by simp [add_task, hE], fun h => absurd h hE, ?_⟩
    intro t s' h
    obtain ⟨_, ht, hl, hn⟩ := add_task_ok s title now t s' h
    subst ht
    exact ⟨rfl, rfl, rfl, hl, hn⟩

/-- Witness for C2 at the concrete inputs of the spec: `add("")` and
`add("   ")` fail, `add("  x  ")` succeeds and stores title `"x"`. -/
theorem add_task_validation_witness :
    (∃ e, add_task ⟨[], 5⟩ "" "N" = Except.error e) ∧
    (∃ e, add_task ⟨[], 5⟩ "   " "N" = Except.error e) ∧
    Task.title ⟨some 5, "x", false, "N", none⟩ = strip "  x  " ∧
    TMState.next_id ⟨[⟨some 5, "x", false, "N", none⟩], 6⟩ = (5 : Int) + 1 := by
  refine ⟨(add_task_validation ⟨[], 5⟩ "" "N").1.mpr rfl,
    (add_task_validation ⟨[], 5⟩ "   " "N").1.mpr rfl, ?_⟩
  have h := (add_task_validation ⟨[], 5⟩ "  x  " "N").2.2
    ⟨some 5, "x", false, "N", none⟩ ⟨[⟨some 5, "x", false, "N", none⟩], 6⟩ rfl
  exact ⟨h.1, h.2.2.2.2⟩

theorem from_dict_to_dict (t : Task) (now : String) (h : t.created_at ≠ "") :
    Task.from_dict (Task.to_dict t) now = some t := by
  cases t with
  | mk id title completed created_at completed_at =>
    simp only [Task.from_dict, Task.to_dict, Task.make, Option.getD_some]
    simp_all

theorem fromDictList_map_to_dict (l : List Task) (now : String)
    (h : ∀ t ∈ l, t.created_at ≠ "") :
    fromDictList (l.map Task.to_dict) now = some l := by
  induction l with
  | nil => rfl
  | cons t ts ih =>
    have ht : t.created_at ≠ "" := h t (List.mem_cons_self t ts)
    have hts : ∀ u ∈ ts, u.created_at ≠ "" := fun u hu => h u (List.mem_cons_of_mem t hu)
    simp only [List.map_cons, fromDictList, List.mapM_cons] at ih ⊢
    rw [from_dict_to_dict t now ht, ih hts]
    rfl

/-- C3: serializing the manager state with `save_tasks` and loading it
back with `load_tasks` reproduces the same tasks (ids, titles,
completion flags, both timestamps) and the same `next_id`.  The
hypothesis rules out an empty `created_at` string, which no run of the
program ever produces (`created_at` is always an ISO timestamp). -/
theorem save_load_round_trip (s : TMState) (now : String)
    (h : ∀ t ∈ s.tasks, t.created_at ≠ "") :
    load_tasks (StoreFile.parsed (save_tasks s)) now = s := by
  cases s with
  | mk ts n =>
    simp only [load_tasks, save_tasks, Option.getD_some]
    rw [fromDictList_map_to_dict ts now h]

/-- Witness for C3 on a concrete two-task state. -/
theorem save_load_round_trip_witness :
    (∀ t ∈ (⟨[⟨some 1, "a", true, "2024-01-01T00:00:00", some "2024-01-02T00:00:00"⟩,
        ⟨some 2, "b", false, "2024-01-03T00:00:00", none⟩], 3⟩ : TMState).tasks,
      t.created_at ≠ "") ∧
    load_tasks (StoreFile.parsed (save_tasks
      ⟨[⟨some 1, "a", true, "2024-01-01T00:00:00", some "2024-01-02T00:00:00"⟩,
        ⟨some 2, "b", false, "2024-01-03T00:00:00", none⟩], 3⟩)) "N" =
      ⟨[⟨some 1, "a", true, "2024-01-01T00:00:00", some "2024-01-02T00:00:00"⟩,
        ⟨some 2, "b", false, "2024-01-03T00:00:00", none⟩], 3⟩ :=
  ⟨by decide, save_load_round_trip _ "N" (by decide)⟩

theorem find_task_eq_none (s : TMState) (i : Int)
    (h : ∀ t ∈ s.tasks, t.id ≠ some i) :
    find_task s i = none := by
  simp only [find_task, List.find?_eq_none]
  intro t ht
  simpa using h t ht

/-- C4: `complete_task`, `uncomplete_task` and `delete_task` on an id
that no task carries return `false` (a not-found outcome, not an
exception), leave the state (`tasks` and `next_id`) unchanged, and
write nothing to the store (`save_tasks` is not invoked). -/
theorem not_found_no_side_effects (s : TMState) (i : Int) (now : String)
    (h : ∀ t ∈ s.tasks, t.id ≠ some i) :
    complete_task s i now = (false, s, none) ∧
    uncomplete_task s i = (false, s, none) ∧
    delete_task s i = (false, s, none) := by
  have hf : find_task s i = none := find_task_eq_none s i h
  exact ⟨by simp [complete_task, hf], by simp [uncomplete_task, hf],
    by simp [delete_task, hf]⟩

/-- Witness for C4: id 99 is absent from a one-task collection. -/
theorem not_found_no_side_effects_witness :
    (∀ t ∈ (⟨[⟨some 1, "a", false, "C", none⟩], 2⟩ : TMState).tasks, t.id ≠ some 99) ∧
    complete_task ⟨[⟨some 1, "a", false, "C", none⟩], 2⟩ 99 "N" =
      (false, ⟨[⟨some 1, "a", false, "C", none⟩], 2⟩, none) ∧
    uncomplete_task ⟨[⟨some 1, "a", false, "C", none⟩], 2⟩ 99 =
      (false, ⟨[⟨some 1, "a", false, "C", none⟩], 2⟩, none) ∧
    delete_task ⟨[⟨some 1, "a", false, "C", none⟩], 2⟩ 99 =
      (false, ⟨[⟨some 1, "a", false, "C", none⟩], 2⟩, none) :=
  ⟨by decide, not_found_no_side_effects _ 99 "N" (by decide)⟩

/-- The `completed_at`-present-iff-`completed` consistency of a state. -/
def TasksConsistent (s : TMState) : Prop :=
  ∀ t ∈ s.tasks, t.completed_at.isSome = t.completed

theorem mem_updateFirst {p : Task → Bool} {f : Task → Task} {l : List Task} {t : Task}
    (h : t ∈ updateFirst p f l) : t ∈ l ∨ ∃ u ∈ l, t = f u := by
  induction l with
  | nil => simp [updateFirst] at h
  | cons a as ih =>
    by_cases hp : p a
    · simp only [updateFirst, if_pos hp, List.mem_cons] at h
      rcases h with rfl | h
      · exact Or.inr ⟨a, List.mem_cons_self a as, rfl⟩
      · exact Or.inl (List.mem_cons_of_mem a h)
    · simp only [updateFirst, if_neg hp, List.mem_cons] at h
      rcases h with rfl | h
      · exact Or.inl (List.mem_cons_self t as)
      · rcases ih h with h' | ⟨u, hu, rfl⟩
        · exact Or.inl (List.mem_cons_of_mem a h')
        · exact Or.inr ⟨u, List.mem_cons_of_mem a hu, rfl⟩

theorem mem_removeFirst {p : Task → Bool} {l : List Task} {t : Task}
    (h : t ∈ removeFirst p l) : t ∈ l := by
  induction l with
  | nil => simp [removeFirst] at h
  | cons a as ih =>
    by_cases hp : p a
    · rw [removeFirst, if_pos hp] at h
      exact List.mem_cons_of_mem a h
    · rw [removeFirst, if_neg hp] at h
      rcases List.mem_cons.mp h with rfl | h
      · exact List.mem_cons_self t as
      · exact List.mem_cons_of_mem a (ih h)

theorem tasksConsistent_applyOp (s : TMState) (op : Op)
    (h : TasksConsistent s) : TasksConsistent (applyOp s op) := by
  cases op with
  | add title now =>
    cases hadd : add_task s title now with
    | error e =>
      have hA : applyOp s (Op.add title now) = s := by simp [applyOp, hadd]
      rw [hA]; exact h
    | ok p =>
      obtain ⟨t, s'⟩ := p
      obtain ⟨_, ht, hl, _⟩ := add_task_ok s title now t s' hadd
      have hA : applyOp s (Op.add title now) = s' := by simp [applyOp, hadd]
      rw [hA]
      intro u hu
      rw [hl] at hu
      rcases List.mem_append.mp hu with hu | hu
      · exact h u hu
      · rw [List.mem_singleton.mp hu, ht]; rfl
  | complete i now =>
    cases hf : find_task s i with
    | none =>
      have hA : applyOp s (Op.complete i now) = s := by simp [applyOp, complete_task, hf]
      rw [hA]; exact h
    | some t0 =>
      have hA : (applyOp s (Op.complete i now)).tasks =
          updateFirst (fun t => t.id == some i) (fun t => t.complete now) s.tasks := by
        simp [applyOp, complete_task, hf]
      intro u hu
      rw [hA] at hu
      rcases mem_updateFirst hu with hu | ⟨v, _, rfl⟩
      · exact h u hu
      · rfl
  | uncomplete i =>
    cases hf : find_task s i with
    | none =>
      have hA : applyOp s (Op.uncomplete i) = s := by simp [applyOp, uncomplete_task, hf]
      rw [hA]; exact h
    | some t0 =>
      have hA : (applyOp s (Op.uncomplete i)).tasks =
          updateFirst (fun t => t.id == some i) Task.uncomplete s.tasks := by
        simp [applyOp, uncomplete_task, hf]
      intro u hu
      rw [hA] at hu
      rcases mem_updateFirst hu with hu | ⟨v, _, rfl⟩
      · exact h u hu
      · rfl
  | delete i =>
    cases hf : find_task s i with
    | none =>
      have hA : applyOp s (Op.delete i) = s := by simp [applyOp, delete_task, hf]
      rw [hA]; exact h
    | some t0 =>
      have hA : (applyOp s (Op.delete i)).tasks =
          removeFirst (fun t => t.id == some i) s.tasks := by
        simp [applyOp, delete_task, hf]
      intro u hu
      rw [hA] at hu
      exact h u (mem_removeFirst hu)

/-- C5 counterexample: a manager constructed from a parseable store
whose single record carries `completed = true` but no `completed_at`
is a reachable state (zero further operations) violating the
present-iff-completed invariant: the loaded task has `completed = true`
and `completed_at` absent. -/
theorem completed_iff_timestamp_counterexample :
    ¬ TasksConsistent (run (load_tasks (StoreFile.parsed
      ⟨some 2, some [⟨some 1, some "a", some true, some "2024-01-01T00:00:00", none⟩]⟩)
      "2024-06-01T10:00:00") []) := by
  unfold TasksConsistent
  decide

/-- C5 amended: provided the state the manager starts from satisfies
the invariant (as it does when the store is absent, corrupt, or holds
only records with `completed_at` present exactly when `completed` is
true), every state reached by `add`, `complete`, `uncomplete` and
`delete` operations keeps every task's `completed_at` present exactly
when its `completed` flag is true. -/
theorem completed_iff_timestamp_invariant (s : TMState) (ops : List Op)
    (h : TasksConsistent s) : TasksConsistent (run s ops) := by
  induction ops generalizing s with
  | nil => exact h
  | cons op ops ih =>
    simp only [run]
    exact ih (applyOp s op) (tasksConsistent_applyOp s op h)

/-- Witness for C5's amended theorem: a fresh manager (absent store)
after an add/complete/add/uncomplete/delete run. -/
theorem completed_iff_timestamp_invariant_witness :
    TasksConsistent (load_tasks StoreFile.absent "T0") ∧
    TasksConsistent (run (load_tasks StoreFile.absent "T0")
      [Op.add "a" "T1", Op.complete 1 "T2", Op.add "  b " "T3",
       Op.uncomplete 1, Op.delete 2]) :=
  have h0 : TasksConsistent (load_tasks StoreFile.absent "T0") := by
    unfold TasksConsistent
    decide
  ⟨h0, completed_iff_timestamp_invariant _ _ h0⟩

/-- C7: `get_statistics` returns `completion_rate = completed/total*100`
when the collection is non-empty, `0` when it is empty, and on the
empty collection every counter is zero; `completed` counts exactly the
tasks whose `completed` flag is set. -/
theorem statistics_completion_rate (s : TMState) (p q : String → Bool) :
    ((get_statistics s p q).total ≠ 0 →
      (get_statistics s p q).completion_rate =
        ((get_statistics s p q).completed : ℚ) / ((get_statistics s p q).total : ℚ) * 100) ∧
    ((get_statistics s p q).total = 0 → (get_statistics s p q).completion_rate = 0) ∧
    (s.tasks = [] → get_statistics s p q = ⟨0, 0, 0, 0, 0, 0⟩) ∧
    (get_statistics s p q).total = s.tasks.length ∧
    (get_statistics s p q).completed = (s.tasks.filter (fun t => t.completed)).length ∧
    (get_statistics s p q).pending =
      (get_statistics s p q).total - (get_statistics s p q).completed := by
  refine ⟨?_, ?_, ?_, rfl, rfl, rfl⟩
  · intro h
    simp only [get_statistics] at h ⊢
    rw [if_pos (Nat.pos_of_ne_zero h)]
  · intro h
    simp only [get_statistics] at h ⊢
    rw [if_neg (by omega)]
  · intro h
    cases s with
    | mk ts n =>
      have h' : ts = [] := h
      subst h'
      rfl

/-- Witness for C7: a half-completed two-task state and the empty state. -/
theorem statistics_completion_rate_witness :
    (get_statistics ⟨[⟨some 1, "a", true, "C", some "D"⟩, ⟨some 2, "b", false, "C", none⟩], 3⟩
        (fun _ => true) (fun _ => true)).completion_rate = (1 : ℚ) / 2 * 100 ∧
    get_statistics ⟨[], 1⟩ (fun _ => true) (fun _ => true) = ⟨0, 0, 0, 0, 0, 0⟩ := by
  constructor
  · have h := (statistics_completion_rate
      ⟨[⟨some 1, "a", true, "C", some "D"⟩, ⟨some 2, "b", false, "C", none⟩], 3⟩
      (fun _ => true) (fun _ => true)).1 (by decide)
    rw [h]
    norm_num [get_statistics]
  · exact (statistics_completion_rate ⟨[], 1⟩ (fun _ => true) (fun _ => true)).2.2.1 rfl

theorem fromDictList_none (l : List TaskDict) (now : String)
    (h : ∃ r ∈ l, r.title = none) : fromDictList l now = none := by
  induction l with
  | nil => simp at h
  | cons d ds ih =>
    obtain ⟨r, hr, hrt⟩ := h
    simp only [fromDictList, List.mapM_cons]
    rcases List.mem_cons.mp hr with rfl | hr
    · simp [Task.from_dict, hrt]
    · have hds : List.mapM (fun d => Task.from_dict d now) ds = none := ih ⟨r, hr, hrt⟩
      rw [hds]
      cases Task.from_dict d now <;> rfl

/-- C9: if any record of a parseable store lacks the `title` field, the
`KeyError` from `Task.from_dict` reaches `load_tasks`'s generic handler
and the whole stored collection is discarded: the manager starts with
no tasks and `next_id = 1`, keeping none of the well-formed records. -/
theorem load_discards_all_on_missing_title (d : StoreData) (now : String)
    (h : ∃ r ∈ d.tasksF.getD [], r.title = none) :
    load_tasks (StoreFile.parsed d) now = ⟨[], 1⟩ := by
  simp only [load_tasks]
  rw [fromDictList_none _ now h]

/-- Witness for C9: a store with `next_id = 7`, one well-formed record
and one record missing `title`, loads as the fresh state. -/
theorem load_discards_all_on_missing_title_witness :
    (∃ r ∈ (⟨some 7, some [⟨some 1, some "a", some true, some "C", some "D"⟩,
        ⟨some 2, none, some false, some "C", none⟩]⟩ : StoreData).tasksF.getD [],
      r.title = none) ∧
    load_tasks (StoreFile.parsed ⟨some 7,
      some [⟨some 1, some "a", some true, some "C", some "D"⟩,
        ⟨some 2, none, some false, some "C", none⟩]⟩) "N" = ⟨[], 1⟩ :=
  ⟨by decide, load_discards_all_on_missing_title _ "N" (by decide)⟩

/-- C6 counterexample: loading a record that lacks `created_at` does
not leave that timestamp absent — the reconstructed task's
`created_at` is the load-time clock value, so its serialized form
carries the key with that value, not an absent field. -/
theorem load_missing_created_at_counterexample :
    ((load_tasks (StoreFile.parsed
        ⟨some 3, some [⟨some 1, some "a", some true, none, none⟩]⟩)
        "2024-06-01T10:00:00").tasks.map (fun t => (Task.to_dict t).created_at))
      = [some "2024-06-01T10:00:00"] ∧
    ((load_tasks (StoreFile.parsed
        ⟨some 3, some [⟨some 1, some "a", some true, none, none⟩]⟩)
        "2024-06-01T10:00:00").tasks.map (fun t => (Task.to_dict t).created_at))
      ≠ [none] := by
  decide

/-- C6 amended: when the store parses and every record reconstructs,
`load_tasks` restores `next_id` (defaulting to 1 when the field is
absent) and rebuilds each task from its stored fields; a record
carrying only `title` yields `completed = false`, `completed_at`
absent, and `created_at` equal to the load-time clock value (not
absent); a record with all fields present is reproduced exactly. -/
theorem load_restores_fields (d : StoreData) (now : String) (ts : List Task)
    (h : fromDictList (d.tasksF.getD []) now = some ts) :
    load_tasks (StoreFile.parsed d) now = ⟨ts, d.next_id.getD 1⟩ ∧
    (∀ (idv : Option Int) (ti : String),
      Task.from_dict ⟨idv, some ti, none, none, none⟩ now =
        some ⟨idv, ti, false, now, none⟩) ∧
    (∀ (idv : Option Int) (ti : String) (c : Bool) (ca ca' : String), ca ≠ "" →
      Task.from_dict ⟨idv, some ti, some c, some ca, some ca'⟩ now =
        some ⟨idv, ti, c, ca, some ca'⟩) := by
  refine ⟨by simp only [load_tasks]; rw [h], ?_, ?_⟩
  · intro idv ti
    rfl
  · intro idv ti c ca ca' hca
    simp [Task.from_dict, Task.make, hca]

/-- Witness for C6's amended theorem on a one-record store whose record
carries only `title`. -/
theorem load_restores_fields_witness :
    fromDictList ((⟨some 4, some [⟨some 1, some "a", none, none, none⟩]⟩ :
        StoreData).tasksF.getD []) "N" = some [⟨some 1, "a", false, "N", none⟩] ∧
    load_tasks (StoreFile.parsed ⟨some 4, some [⟨some 1, some "a", none, none, none⟩]⟩) "N" =
      ⟨[⟨some 1, "a", false, "N", none⟩], 4⟩ ∧
    Task.from_dict ⟨some 9, some "t", none, none, none⟩ "N" =
      some ⟨some 9, "t", false, "N", none⟩ ∧
    Task.from_dict ⟨some 9, some "t", some true, some "C", some "D"⟩ "N" =
      some ⟨some 9, "t", true, "C", some "D"⟩ := by
  have h := load_restores_fields
    ⟨some 4, some [⟨some 1, some "a", none, none, none⟩]⟩ "N"
    [⟨some 1, "a", false, "N", none⟩] (by decide)
  exact ⟨by decide, h.1, h.2.1 (some 9) "t", h.2.2 (some 9) "t" true "C" "D" (by decide)⟩

theorem exists_first_decomp (p : Task → Bool) (l : List Task)
    (h : ∃ t ∈ l, p t = true) :
    ∃ pre t post, l = pre ++ t :: post ∧ (∀ u ∈ pre, p u = false) ∧ p t = true := by
  induction l with
  | nil => simp at h
  | cons a as ih =>
    by_cases hp : p a
    · exact ⟨[], a, as, rfl, by simp, hp⟩
    · obtain ⟨t, ht, hpt⟩ := h
      rcases List.mem_cons.mp ht with rfl | ht
      · exact absurd hpt hp
      · obtain ⟨pre, t', post, hl, hpre, hpt'⟩ := ih ⟨t, ht, hpt⟩
        refine ⟨a :: pre, t', post, by rw [hl, List.cons_append], ?_, hpt'⟩
        intro u hu
        rcases List.mem_cons.mp hu with rfl | hu
        · simpa using hp
        · exact hpre u hu

theorem updateFirst_append (p : Task → Bool) (f : Task → Task)
    (pre post : List Task) (t : Task)
    (hpre : ∀ u ∈ pre, p u = false) (hpt : p t = true) :
    updateFirst p f (pre ++ t :: post) = pre ++ f t :: post := by
  induction pre with
  | nil => simp [updateFirst, hpt]
  | cons a as ih =>
    have ha : p a = false := hpre a (List.mem_cons_self a as)
    simp only [List.cons_append, updateFirst, ha, Bool.false_eq_true, if_false,
      List.append_eq]
    rw [ih (fun u hu => hpre u (List.mem_cons_of_mem a hu))]

theorem find_task_isSome (s : TMState) (i : Int)
    (h : ∃ t ∈ s.tasks, t.id = some i) :
    ∃ t0, find_task s i = some t0 := by
  cases hf : find_task s i with
  | some t0 => exact ⟨t0, rfl⟩
  | none =>
    exfalso
    rw [find_task, List.find?_eq_none] at hf
    obtain ⟨t, ht, hti⟩ := h
    exact hf t ht (by simp [hti])

/-- C8: for an id present in the collection, `complete_task` followed
by `uncomplete_task` leaves `next_id` unchanged, leaves every other
task (before and after the target) untouched, and turns the first task
carrying that id into the same task with `completed = false` and
`completed_at` absent — keeping its `id`, `title` and `created_at`. -/
theorem complete_then_uncomplete (s : TMState) (i : Int) (now : String)
    (h : ∃ t ∈ s.tasks, t.id = some i) :
    ∃ pre t post,
      s.tasks = pre ++ t :: post ∧
      (∀ u ∈ pre, u.id ≠ some i) ∧ t.id = some i ∧
      (uncomplete_task (complete_task s i now).2.1 i).2.1 =
        ⟨pre ++ { t with completed := false, completed_at := none } :: post,
          s.next_id⟩ := by
  obtain ⟨pre, t, post, hl, hpre, hpt⟩ :=
    exists_first_decomp (fun t => t.id == some i) s.tasks
      (by obtain ⟨t, ht, hti⟩ := h; exact ⟨t, ht, by simp [hti]⟩)
  obtain ⟨t0, hf⟩ := find_task_isSome s i h
  have h1 : (complete_task s i now).2.1 =
      ⟨pre ++ t.complete now :: post, s.next_id⟩ := by
    simp only [complete_task, hf]
    rw [hl, updateFirst_append _ _ pre post t hpre hpt]
  have h2 : ∃ u ∈ (complete_task s i now).2.1.tasks, u.id = some i := by
    rw [h1]
    exact ⟨t.complete now, by simp, by simpa using hpt⟩
  obtain ⟨u0, hf2⟩ := find_task_isSome _ i h2
  have h3 : (uncomplete_task (complete_task s i now).2.1 i).2.1 =
      ⟨pre ++ (t.complete now).uncomplete :: post, s.next_id⟩ := by
    rw [h1] at hf2
    simp only [uncomplete_task, h1, hf2]
    rw [updateFirst_append _ _ pre post (t.complete now) hpre (by simpa using hpt)]
  refine ⟨pre, t, post, hl, ?_, by simpa using hpt, ?_⟩
  · intro u hu
    simpa using hpre u hu
  · rw [h3]
    rfl

/-- Witness for C8: a two-task collection, completing then
uncompleting the second task. -/
theorem complete_then_uncomplete_witness :
    ∃ pre t post,
      (⟨[⟨some 1, "a", false, "C1", none⟩, ⟨some 2, "b", true, "C2", some "D"⟩], 3⟩ :
        TMState).tasks = pre ++ t :: post ∧
      (∀ u ∈ pre, u.id ≠ some 2) ∧ t.id = some 2 ∧
      (uncomplete_task (complete_task
        ⟨[⟨some 1, "a", false, "C1", none⟩, ⟨some 2, "b", true, "C2", some "D"⟩], 3⟩
        2 "N").2.1 2).2.1 =
        ⟨pre ++ { t with completed := false, completed_at := none } :: post, 3⟩ :=
  complete_then_uncomplete
    ⟨[⟨some 1, "a", false, "C1", none⟩, ⟨some 2, "b", true, "C2", some "D"⟩], 3⟩
    2 "N" (by decide)

theorem filter_length_eq_of_map_eq {α β : Type} (g : β → Bool) (f : α → β)
    (l l' : List α) (h : l.map f = l'.map f) :
    (l.filter (fun x => g (f x))).length = (l'.filter (fun x => g (f x))).length := by
  induction l generalizing l' with
  | nil =>
    cases l' with
    | nil => rfl
    | cons b bs => simp at h
  | cons a as ih =>
    cases l' with
    | nil => simp at h
    | cons b bs =>
      simp only [List.map_cons, List.cons.injEq] at h
      obtain ⟨hab, hmap⟩ := h
      simp only [List.filter_cons, hab]
      by_cases hg : g (f b)
      · simp only [hg, if_true, List.length_cons, ih bs hmap]
      · simp only [hg, if_false, Bool.false_eq_true, ih bs hmap]

/-- C10: the `completed_today` and `completed_this_week` counters of
`get_statistics` depend only on the tasks' `completed_at` fields, not
on their `completed` flags; concretely, a state hydrated from a stored
record with `completed = false` but a present `completed_at` (with the
date predicates true on that timestamp) is counted in both counters
while contributing nothing to `completed`. -/
theorem completed_counters_ignore_flag (p q : String → Bool)
    (hp : p "2024-06-01T09:00:00" = true) (hq : q "2024-06-01T09:00:00" = true) :
    (∀ s s' : TMState, s.tasks.map Task.completed_at = s'.tasks.map Task.completed_at →
      (get_statistics s p q).completed_today = (get_statistics s' p q).completed_today ∧
      (get_statistics s p q).completed_this_week =
        (get_statistics s' p q).completed_this_week) ∧
    ((get_statistics (load_tasks (StoreFile.parsed ⟨some 2,
        some [⟨some 1, some "a", some false, some "2024-01-01T00:00:00",
          some "2024-06-01T09:00:00"⟩]⟩) "N") p q).completed = 0 ∧
     (get_statistics (load_tasks (StoreFile.parsed ⟨some 2,
        some [⟨some 1, some "a", some false, some "2024-01-01T00:00:00",
          some "2024-06-01T09:00:00"⟩]⟩) "N") p q).completed_today = 1 ∧
     (get_statistics (load_tasks (StoreFile.parsed ⟨some 2,
        some [⟨some 1, some "a", some false, some "2024-01-01T00:00:00",
          some "2024-06-01T09:00:00"⟩]⟩) "N") p q).completed_this_week = 1 ∧
     (load_tasks (StoreFile.parsed ⟨some 2,
        some [⟨some 1, some "a", some false, some "2024-01-01T00:00:00",
          some "2024-06-01T09:00:00"⟩]⟩) "N").tasks.map Task.completed = [false]) := by
  constructor
  · intro s s' h
    constructor
    · exact filter_length_eq_of_map_eq
        (fun o => match o with
          | some c => if c = "" then false else p c
          | none => false) Task.completed_at s.tasks s'.tasks h
    · exact filter_length_eq_of_map_eq
        (fun o => match o with
          | some c => if c = "" then false else q c
          | none => false) Task.completed_at s.tasks s'.tasks h
  · have hload : load_tasks (StoreFile.parsed ⟨some 2,
        some [⟨some 1, some "a", some false, some "2024-01-01T00:00:00",
          some "2024-06-01T09:00:00"⟩]⟩) "N" =
        ⟨[⟨some 1, "a", false, "2024-01-01T00:00:00", some "2024-06-01T09:00:00"⟩], 2⟩ := by
      decide
    rw [hload]
    refine ⟨rfl, ?_, ?_, rfl⟩
    · simp [get_statistics, hp]
    · simp [get_statistics, hq]

/-- Witness for C10 with the always-true date predicates. -/
theorem completed_counters_ignore_flag_witness :
    ((get_statistics (load_tasks (StoreFile.parsed ⟨some 2,
        some [⟨some 1, some "a", some false, some "2024-01-01T00:00:00",
          some "2024-06-01T09:00:00"⟩]⟩) "N") (fun _ => true) (fun _ => true)).completed = 0 ∧
     (get_statistics (load_tasks (StoreFile.parsed ⟨some 2,
        some [⟨some 1, some "a", some false, some "2024-01-01T00:00:00",
          some "2024-06-01T09:00:00"⟩]⟩) "N") (fun _ => true) (fun _ => true)).completed_today = 1 ∧
     (get_statistics (load_tasks (StoreFile.parsed ⟨some 2,
        some [⟨some 1, some "a", some false, some "2024-01-01T00:00:00",
          some "2024-06-01T09:00:00"⟩]⟩) "N") (fun _ => true) (fun _ => true)).completed_this_week = 1 ∧
     (load_tasks (StoreFile.parsed ⟨some 2,
        some [⟨some 1, some "a", some false, some "2024-01-01T00:00:00",
          some "2024-06-01T09:00:00"⟩]⟩) "N").tasks.map Task.completed = [false]) :=
  (completed_counters_ignore_flag (fun _ => true) (fun _ => true) rfl rfl).2

end TaskManager
